import Mathlib

/-!
# Verification of the Notability `.note` stroke-extraction pipeline

Shallow embedding of `src/parser.ts` and the path construction of
`src/main.ts` (`drawCurve`).  JavaScript numbers are modelled by `JSNum`
(a finite rational, `NaN`, or a signed infinity); array reads that can
yield `undefined` are modelled with `Option`.  The decoded plist value
tree is modelled by `Value`; composite nodes carry an identity tag that
stands for the JavaScript object reference used by the `visited` set of
`searchForCurveData`.
-/

namespace Notability

/-- Model of a JavaScript number: a finite value (exact rational),
`NaN`, or one of the two infinities. -/
inductive JSNum where
  | num (q : ℚ)
  | nan
  | posInf
  | negInf
deriving DecidableEq, Repr, Inhabited

namespace JSNum

/-- JavaScript `isNaN` on a number. -/
def isNaN : JSNum → Bool
  | .nan => true
  | _ => false

/-- JavaScript truthiness of a number: `0` and `NaN` are falsy. -/
def truthy : JSNum → Bool
  | .num q => decide (q ≠ 0)
  | .nan => false
  | _ => true

/-- JavaScript `<=` on numbers (`false` whenever either side is `NaN`). -/
def jsle : JSNum → JSNum → Bool
  | .nan, _ => false
  | _, .nan => false
  | .negInf, _ => true
  | _, .negInf => false
  | _, .posInf => true
  | .posInf, _ => false
  | .num p, .num q => decide (p ≤ q)

/-- JavaScript `Math.max` of two numbers: `NaN` if either argument is
`NaN`, otherwise the larger argument. -/
def jsMax : JSNum → JSNum → JSNum
  | .nan, _ => .nan
  | _, .nan => .nan
  | .negInf, y => y
  | x, .negInf => x
  | .posInf, _ => .posInf
  | _, .posInf => .posInf
  | .num p, .num q => if p < q then .num q else .num p

/-- JavaScript `+` on numbers. -/
def jsAdd : JSNum → JSNum → JSNum
  | .nan, _ => .nan
  | _, .nan => .nan
  | .posInf, .negInf => .nan
  | .negInf, .posInf => .nan
  | .posInf, _ => .posInf
  | _, .posInf => .posInf
  | .negInf, _ => .negInf
  | _, .negInf => .negInf
  | .num p, .num q => .num (p + q)

/-- JavaScript `Math.ceil`. -/
def jsCeil : JSNum → JSNum
  | .num q => .num (⌈q⌉ : ℚ)
  | x => x

/-- Halving, used for the midpoints of `drawCurve` (`(a + b) / 2`). -/
def half : JSNum → JSNum
  | .num q => .num (q / 2)
  | x => x

end JSNum

/-- `value || default` on a possibly-absent number (JavaScript `||`
takes the default whenever the left side is falsy: absent, `0`, `NaN`). -/
def jsOrNum (v : Option JSNum) (d : JSNum) : JSNum :=
  match v with
  | some x => if x.truthy then x else d
  | none => d

/-- The components of the CSS `rgba(r, g, b, a)` string produced by
`rgbaIntToColor`. -/
structure Color where
  r : ℕ
  g : ℕ
  b : ℕ
  a : ℚ
deriving DecidableEq, Repr

/-- JavaScript `ToUint32` of an integer (the conversion performed by
`>>>`). -/
def jsToUint32 (x : ℤ) : ℕ := (x % (4294967296 : ℤ)).toNat

/-- Source `rgbaIntToColor` (src/parser.ts lines 275-292).  The source
builds a CSS string; we model the four numeric components it prints.
`rgba >>> k & 0xFF` is modelled by `jsToUint32 rgba >>> k &&& 255`, and
`rgba & 0xFF` (ToInt32 then bitwise and) by `jsToUint32 rgba &&& 255`,
which agrees with two's-complement `&` for every 32-bit input. -/
def rgbaIntToColor (rgba : ℤ) : Color :=
  if rgba = 0 then ⟨0, 0, 0, 1⟩
  else
    let a : ℕ := (jsToUint32 rgba >>> 24) &&& 255
    let b : ℕ := (jsToUint32 rgba >>> 16) &&& 255
    let g : ℕ := (jsToUint32 rgba >>> 8) &&& 255
    let r : ℕ := jsToUint32 rgba &&& 255
    if a = 0 ∧ (r > 0 ∨ g > 0 ∨ b > 0) then
      let r2 : ℕ := (jsToUint32 rgba >>> 24) &&& 255
      let g2 : ℕ := (jsToUint32 rgba >>> 16) &&& 255
      let b2 : ℕ := (jsToUint32 rgba >>> 8) &&& 255
      ⟨r2, g2, b2, (r : ℚ) / 255⟩
    else ⟨r, g, b, (a : ℚ) / 255⟩

/-- Byte `k` (little-endian, `0 ≤ k ≤ 3`) of the low 32 bits of an
integer, written arithmetically; the specification's reading of the
packed color word. -/
def byteOf (x : ℤ) (k : ℕ) : ℕ := jsToUint32 x / 2 ^ (8 * k) % 256

/-! ## The decoded plist value tree

Output of `plistToPlain`: plain JavaScript values.  Composite nodes
(`ArrayBuffer`s, arrays, plain objects) carry a natural-number identity
standing for the JavaScript object reference; `plistToPlain` builds a
fresh object for every node, so trees produced by the parser have
pairwise-distinct identities. -/

inductive Value where
  | null
  | bool (b : Bool)
  | num (n : JSNum)
  | str (s : String)
  | bytes (id : ℕ) (bs : List ℕ)
  | arr (id : ℕ) (items : List Value)
  | dict (id : ℕ) (entries : List (String × Value))

/-- JavaScript truthiness of a `Value` (objects are always truthy). -/
def truthyV : Value → Bool
  | .null => false
  | .bool b => b
  | .num n => n.truthy
  | .str s => decide (s ≠ "")
  | _ => true

/-- Property read `obj[key]` on a plain object, `none` = `undefined`. -/
def lookupEntries : List (String × Value) → String → Option Value
  | [], _ => none
  | (k, v) :: rest, key => if k = key then some v else lookupEntries rest key

/-- Truthiness of a possibly-absent value (`undefined` is falsy). -/
def truthyOpt : Option Value → Bool
  | some v => truthyV v
  | none => false

/-- The guard `obj.curvespoints || obj.curvesPoints || obj.CurvesPoints`
of `searchForCurveData`, evaluated on a plain object's entries. -/
def curveKeyMatch (es : List (String × Value)) : Bool :=
  truthyOpt (lookupEntries es "curvespoints") ||
    truthyOpt (lookupEntries es "curvesPoints") ||
      truthyOpt (lookupEntries es "CurvesPoints")

mutual

/-- Identities of all composite nodes of a value, in preorder. -/
def allIds : Value → List ℕ
  | .bytes i _ => [i]
  | .arr i items => i :: allIdsList items
  | .dict i es => i :: allIdsEntries es
  | _ => []

def allIdsList : List Value → List ℕ
  | [] => []
  | v :: vs => allIds v ++ allIdsList vs

def allIdsEntries : List (String × Value) → List ℕ
  | [] => []
  | (_, v) :: es => allIds v ++ allIdsEntries es

end

mutual

/-- Source `searchForCurveData` (src/parser.ts lines 131-157).  Returns
the result together with the visited set (the source mutates `visited`
in place; we thread it).  Order of checks follows the source: depth
bound, non-object bailout, visited check, curve-key check, then
recursion into array items / object property values. -/
def searchAux : Value → ℕ → List ℕ → Option Value × List ℕ
  | v, depth, vis =>
    if depth > 15 then (none, vis)
    else
      match v with
      | .null => (none, vis)
      | .bool _ => (none, vis)
      | .num _ => (none, vis)
      | .str _ => (none, vis)
      | .bytes i _ =>
        -- an ArrayBuffer is an object with no enumerable properties
        if i ∈ vis then (none, vis) else (none, i :: vis)
      | .arr i items =>
        if i ∈ vis then (none, vis)
        else searchItems items (depth + 1) (i :: vis)
      | .dict i es =>
        if i ∈ vis then (none, vis)
        else if curveKeyMatch es then (some (.dict i es), i :: vis)
        else searchEntries es (depth + 1) (i :: vis)

def searchItems : List Value → ℕ → List ℕ → Option Value × List ℕ
  | [], _, vis => (none, vis)
  | x :: xs, depth, vis =>
    match searchAux x depth vis with
    | (some r, vis2) => (some r, vis2)
    | (none, vis2) => searchItems xs depth vis2

def searchEntries : List (String × Value) → ℕ → List ℕ → Option Value × List ℕ
  | [], _, vis => (none, vis)
  | (_, x) :: xs, depth, vis =>
    match searchAux x depth vis with
    | (some r, vis2) => (some r, vis2)
    | (none, vis2) => searchEntries xs depth vis2

end

/-- Entry point of the locator: depth `0`, empty visited set. -/
def searchForCurveData (v : Value) : Option Value :=
  (searchAux v 0 []).1

/-- A node the locator may return: a dictionary whose curve-key guard
holds. -/
def isCurveMatch : Value → Bool
  | .dict _ es => curveKeyMatch es
  | _ => false

/-- The children a traversal descends into (array items, object
property values). -/
def childrenOf : Value → List Value
  | .arr _ items => items
  | .dict _ es => es.map Prod.snd
  | _ => []

/-- Specification-side enumeration: all nodes of the tree in preorder,
restricted to the first `fuel` levels (the source admits nodes at
depth `0..15`, i.e. `fuel = 16`). -/
def boundedNodes : ℕ → Value → List Value
  | 0, _ => []
  | fuel + 1, v => v :: (childrenOf v).flatMap (boundedNodes fuel)

/-! ## TypedArrayDecoder: `decodeData` -/

/-- Classified failures.  `rangeError` is the `RangeError` thrown by the
`Float32Array`/`Int32Array` constructors on a buffer whose byte length
is not a multiple of 4; `invalidCharacter` is the `InvalidCharacterError`
thrown by `atob`; the last two are the `throw new Error(...)` sites of
`extractCurveData` (both presented as `NoCurveData` by the spec). -/
inductive JSError where
  | rangeError
  | invalidCharacter
  | noValidData
  | noValidCurves
  | noCurveData
  | invalidPlistObject
deriving DecidableEq, Repr

/-- ASCII whitespace removed by forgiving-base64 (`atob`). -/
def isB64Ws (c : Char) : Bool :=
  c = ' ' || c = '\t' || c = '\n' || c = '\x0c' || c = '\r'

/-- Value of one base64 alphabet character. -/
def b64Val (c : Char) : Option ℕ :=
  if 'A' ≤ c ∧ c ≤ 'Z' then some (c.toNat - 65)
  else if 'a' ≤ c ∧ c ≤ 'z' then some (c.toNat - 97 + 26)
  else if '0' ≤ c ∧ c ≤ '9' then some (c.toNat - 48 + 52)
  else if c = '+' then some 62
  else if c = '/' then some 63
  else none

/-- Strip one or two trailing `=` padding characters. -/
def stripPad (cs : List Char) : List Char :=
  match cs.reverse with
  | '=' :: '=' :: rest => rest.reverse
  | '=' :: rest => rest.reverse
  | _ => cs

/-- Reassemble 6-bit groups into bytes (a final group of 1 character is
impossible after the length check and is dropped). -/
def b64Bytes : List ℕ → List ℕ
  | v1 :: v2 :: v3 :: v4 :: rest =>
    (v1 * 4 + v2 / 16) :: ((v2 % 16) * 16 + v3 / 4) :: ((v3 % 4) * 64 + v4) ::
      b64Bytes rest
  | [v1, v2] => [v1 * 4 + v2 / 16]
  | [v1, v2, v3] => [v1 * 4 + v2 / 16, (v2 % 16) * 16 + v3 / 4]
  | _ => []

/-- Browser `atob` (WHATWG forgiving-base64 decode): strip ASCII
whitespace, strip up to two `=` when the length is a multiple of 4,
fail on a remainder-1 length or a character outside the alphabet, and
reassemble the 6-bit values into bytes.  The source converts the
returned binary string into bytes with `charCodeAt`; we return the
bytes directly. -/
def atob (s : String) : Except JSError (List ℕ) :=
  let cs := s.data.filter (fun c => !isB64Ws c)
  let cs := if cs.length % 4 = 0 then stripPad cs else cs
  if cs.length % 4 = 1 then .error .invalidCharacter
  else
    match cs.mapM b64Val with
    | none => .error .invalidCharacter
    | some vals => .ok (b64Bytes vals)

/-- Reinterpret a 32-bit word as an IEEE-754 binary32 value (the
element type of `Float32Array`). -/
def decodeFloat32 (u : ℕ) : JSNum :=
  let s : ℕ := u / 2 ^ 31 % 2
  let e : ℕ := u / 2 ^ 23 % 256
  let m : ℕ := u % 2 ^ 23
  if e = 255 then
    if m = 0 then (if s = 1 then .negInf else .posInf) else .nan
  else
    let sign : ℚ := if s = 1 then -1 else 1
    if e = 0 then .num (sign * (m : ℚ) / 2 ^ 149)
    else .num (sign * ((2 ^ 23 + m : ℕ) : ℚ) * (2 : ℚ) ^ ((e : ℤ) - 150))

/-- Reinterpret a 32-bit word as a two's-complement signed integer (the
element type of `Int32Array`). -/
def toInt32 (u : ℕ) : ℤ :=
  if u % 2 ^ 32 < 2 ^ 31 then ((u % 2 ^ 32 : ℕ) : ℤ)
  else ((u % 2 ^ 32 : ℕ) : ℤ) - 2 ^ 32

/-- The two element kinds `decodeData` supports. -/
inductive DType where
  | float
  | int
deriving DecidableEq, Repr

/-- Group a byte list into 4-byte little-endian words, dropping an
incomplete trailing group. -/
def words32 : List ℕ → List ℕ
  | b0 :: b1 :: b2 :: b3 :: rest =>
    (b0 + 256 * b1 + 65536 * b2 + 16777216 * b3) :: words32 rest
  | _ => []

/-- View of a whole buffer as `Float32Array` / `Int32Array`
(src/parser.ts lines 265-269).  The constructors throw a `RangeError`
when the byte length is not a multiple of the 4-byte element size;
otherwise the platform(-little)-endian elements are returned. -/
def bytesToArray (bs : List ℕ) (t : DType) : Except JSError (List JSNum) :=
  if bs.length % 4 = 0 then
    match t with
    | .float => .ok ((words32 bs).map decodeFloat32)
    | .int => .ok ((words32 bs).map (fun u => .num ((toInt32 u : ℤ) : ℚ)))
  else .error .rangeError

mutual

/-- Source `decodeData` (src/parser.ts lines 243-270) on a present
value.  The leading `if (!data) return []` is the truthiness test;
then: raw buffers are viewed directly, strings are base64-decoded with
`atob` and the resulting bytes viewed, an object is probed for a truthy
`data` property to recurse on, and everything else yields `[]`. -/
def decodeDataV : Value → DType → Except JSError (List JSNum)
  | v, t =>
    if !truthyV v then .ok []
    else
      match v with
      | .bytes _ bs => bytesToArray bs t
      | .str s =>
        match atob s with
        | .error e => .error e
        | .ok bs => bytesToArray bs t
      | .dict _ es => decodeDataProp es t
      | _ => .ok []

/-- The `data.data` probe: find the `data` property; recurse when it is
truthy, return `[]` otherwise (also when absent). -/
def decodeDataProp : List (String × Value) → DType → Except JSError (List JSNum)
  | [], _ => .ok []
  | (k, v) :: rest, t =>
    if k = "data" then (if truthyV v then decodeDataV v t else .ok [])
    else decodeDataProp rest t

end

/-- `decodeData` including an absent (`undefined`) input. -/
def decodeData (v : Option Value) (t : DType) : Except JSError (List JSNum) :=
  match v with
  | none => .ok []
  | some v => decodeDataV v t

/-! ## CurveAssembler and GeometryPlanner: the body of `extractCurveData` -/

/-- One decoded stroke point. -/
structure Pt where
  x : JSNum
  y : JSNum
deriving DecidableEq, Repr, Inhabited

/-- One assembled curve. -/
structure CurveData where
  points : List Pt
  width : JSNum
  color : Color
deriving DecidableEq, Repr

/-- The assembled document. -/
structure NotabilityData where
  curves : List CurveData
  width : JSNum
  height : JSNum
deriving DecidableEq, Repr

/-- Number of iterations of `for (let j = 0; j < n; j++)` for a finite
bound `n` (the number of naturals strictly below `n`).  The source
loop never terminates when `n` is `+Infinity`; decoded `Int32Array`
counts are always finite integers, so we map that unreachable case to
`0` and the theorems that depend on counts assume integer entries. -/
def iterCount : JSNum → ℕ
  | .num q => if 0 < q then ⌈q⌉.toNat else 0
  | _ => 0

/-- The inner `j` loop (src/parser.ts lines 201-209): read the pair at
the shared cursor, keep it when both coordinates are present and not
`NaN`, and advance the cursor by one pair regardless.  Returns the
retained points and the final cursor. -/
def consumePoints (pointsData : List JSNum) : ℕ → ℕ → List Pt × ℕ
  | cursor, 0 => ([], cursor)
  | cursor, n + 1 =>
    let x := pointsData.get? (cursor * 2)
    let y := pointsData.get? (cursor * 2 + 1)
    let rest := consumePoints pointsData (cursor + 1) n
    match x, y with
    | some xv, some yv =>
      if !xv.isNaN && !yv.isNaN then (⟨xv, yv⟩ :: rest.1, rest.2)
      else rest
    | _, _ => rest

/-- The argument the source passes to `rgbaIntToColor`, namely
`colors[i] || 0`.  Decoded `Int32Array` entries are integers; a
non-integer rational (unreachable through `decodeData`) is floored. -/
def colorArg (v : Option JSNum) : ℤ :=
  match jsOrNum v (.num 0) with
  | .num q => ⌊q⌋
  | _ => 0

/-- One iteration of the curve loop (src/parser.ts lines 196-219) at
counts index `i` with count `n`, acting on the state
`(point cursor, curves so far)`. -/
def curveStep (pointsData widths colors : List JSNum) (i : ℕ) (n : JSNum)
    (st : ℕ × List CurveData) : ℕ × List CurveData :=
  if n.jsle (.num 0) then st
  else
    let r := consumePoints pointsData st.1 (iterCount n)
    if r.1.length ≥ 2 then
      let c : CurveData :=
        ⟨r.1, jsOrNum (widths.get? i) (.num 2), rgbaIntToColor (colorArg (colors.get? i))⟩
      (r.2, st.2 ++ [c])
    else (r.2, st.2)

/-- The whole curve loop over the enumerated counts. -/
def curveLoop (pointsData widths colors : List JSNum) :
    List (ℕ × JSNum) → ℕ × List CurveData → ℕ × List CurveData
  | [], st => st
  | (i, n) :: rest, st =>
    curveLoop pointsData widths colors rest (curveStep pointsData widths colors i n st)

/-- The max-tracking loop over one curve's points (src/parser.ts lines
226-231, inner loop), carrying `(maxX, maxY)`. -/
def maxFoldPoints : List Pt → JSNum × JSNum → JSNum × JSNum
  | [], m => m
  | p :: ps, m => maxFoldPoints ps (m.1.jsMax p.x, m.2.jsMax p.y)

/-- The max-tracking loop over all curves, starting from
`maxX = 0, maxY = 0`. -/
def maxFoldCurves : List CurveData → JSNum × JSNum → JSNum × JSNum
  | [], m => m
  | c :: cs, m => maxFoldCurves cs (maxFoldPoints c.points m)

/-- Specification-side: the raw x-coordinates of every point of every
curve. -/
def allXs (cs : List CurveData) : List JSNum :=
  cs.flatMap (fun c => c.points.map Pt.x)

/-- Specification-side: the raw y-coordinates of every point of every
curve. -/
def allYs (cs : List CurveData) : List JSNum :=
  cs.flatMap (fun c => c.points.map Pt.y)

/-- The body of `extractCurveData` downstream of `decodeData`
(src/parser.ts lines 189-237): reject empty points/counts arrays,
assemble the curves, reject an empty result, and size the canvas. -/
def extractCurveDataArrays (pointsData numPoints widths colors : List JSNum) :
    Except JSError NotabilityData :=
  if pointsData.length = 0 ∨ numPoints.length = 0 then .error .noValidData
  else
    let curves := (curveLoop pointsData widths colors numPoints.enum (0, [])).2
    if curves.length = 0 then .error .noValidCurves
    else
      let m := maxFoldCurves curves (.num 0, .num 0)
      .ok ⟨curves, (m.1.jsCeil.jsAdd (.num 50)).jsMax (.num 800),
        (m.2.jsCeil.jsAdd (.num 50)).jsMax (.num 1000)⟩

/-- JavaScript `a || b` on possibly-absent values. -/
def jsOrV (a b : Option Value) : Option Value := if truthyOpt a then a else b

/-- The `curveData.curvespoints || curveData.curvesPoints ||
curveData.CurvesPoints` field-selection chain. -/
def pick3 (es : List (String × Value)) (k1 k2 k3 : String) : Option Value :=
  jsOrV (lookupEntries es k1) (jsOrV (lookupEntries es k2) (lookupEntries es k3))

/-- Full `extractCurveData` (src/parser.ts lines 126-238): locate the
curve record, decode the four arrays, and assemble. -/
def extractCurveData (plistObj : Value) : Except JSError NotabilityData :=
  if !truthyV plistObj || !(match plistObj with
      | .bytes _ _ => true | .arr _ _ => true | .dict _ _ => true | _ => false) then
    .error .invalidPlistObject
  else
    match searchForCurveData plistObj with
    | none => .error .noCurveData
    | some cd =>
      let es := match cd with | .dict _ es => es | _ => []
      match decodeData (pick3 es "curvespoints" "curvesPoints" "CurvesPoints") .float with
      | .error e => .error e
      | .ok pointsData =>
      match decodeData (pick3 es "curvesnumpoints" "curvesNumPoints" "CurvesNumPoints") .int with
      | .error e => .error e
      | .ok numPoints =>
      match decodeData (pick3 es "curveswidth" "curvesWidth" "CurvesWidth") .float with
      | .error e => .error e
      | .ok widths =>
      match decodeData (pick3 es "curvescolors" "curvesColors" "CurvesColors") .int with
      | .error e => .error e
      | .ok colors => extractCurveDataArrays pointsData numPoints widths colors

/-! ## StrokePathBuilder: `drawCurve` (src/main.ts) -/

/-- A backend-agnostic path segment. -/
inductive PathSeg where
  | moveTo (p : Pt)
  | lineTo (p : Pt)
  | quadraticTo (control : Pt) (endp : Pt)
deriving DecidableEq, Repr

/-- The defensive point filter of `drawCurve`: both coordinates are
numbers (always true in this model) and not `NaN`. -/
def validPt (p : Pt) : Bool := !p.x.isNaN && !p.y.isNaN

/-- Midpoint of two points, computed as the source does
(`(a + b) / 2` componentwise). -/
def midPt (a b : Pt) : Pt := ⟨(a.x.jsAdd b.x).half, (a.y.jsAdd b.y).half⟩

/-- The interior loop of `drawCurve` (src/main.ts lines 382-393): for
each interior point `curr` with a successor `next`, emit
`quadraticCurveTo(curr, midpoint(curr, next))`.  The loop stops before
the last point. -/
def quadSegs : List Pt → List PathSeg
  | curr :: next :: rest => .quadraticTo curr (midPt curr next) :: quadSegs (next :: rest)
  | _ => []

/-- Last two elements of a list seeded with two elements
(`points[n-2]`, `points[n-1]`). -/
def lastTwo : Pt → Pt → List Pt → Pt × Pt
  | a, b, [] => (a, b)
  | _, b, c :: rest => lastTwo b c rest

/-- Source `drawCurve` (src/main.ts lines 357-402) as the sequence of
path commands it issues.  Fewer than 2 raw points: nothing; filter to
valid points; fewer than 2 valid: nothing; exactly 2: move + line;
otherwise move, the interior quadratics, and a final
`quadraticCurveTo(points[n-2], points[n-1])`. -/
def drawCurve (curve : CurveData) : List PathSeg :=
  if curve.points.length < 2 then []
  else
    let points := curve.points.filter validPt
    if points.length < 2 then []
    else
      match points with
      | p0 :: p1 :: rest =>
        if rest = [] then [.moveTo p0, .lineTo p1]
        else
          let lt := lastTwo p0 p1 rest
          .moveTo p0 :: (quadSegs (p1 :: rest) ++ [.quadraticTo lt.1 lt.2])
      | _ => []

/-- Specification-side path description (spec section 4.7, claim C5):
`MoveTo(p0)`, then for each interior index `i` from `1` to `n-2` a
`QuadraticTo{control: p[i], end: midpoint(p[i], p[i+1])}`, then one
final `QuadraticTo{control: p[n-2], end: p[n-1]}`; fewer than 2 points
give an empty path and exactly 2 give a move and a line.  Stated over
lists with combinators rather than the source's index loop. -/
def strokePathSpec (ps : List Pt) : List PathSeg :=
  if ps.length < 2 then []
  else if ps.length = 2 then [.moveTo ps[0]!, .lineTo ps[1]!]
  else
    .moveTo ps[0]! ::
      (((ps.drop 1).zip (ps.drop 2)).map
          (fun pr => .quadraticTo pr.1 (midPt pr.1 pr.2)) ++
        [.quadraticTo ps[ps.length - 2]! ps[ps.length - 1]!])

/-! # Theorems -/

/-- A decoded 32-bit view has one element per complete 4-byte group. -/
theorem words32_length (bs : List ℕ) : (words32 bs).length = bs.length / 4 := by
  match bs with
  | [] => simp [words32]
  | [_] => simp [words32]
  | [_, _] => simp [words32]
  | [_, _, _] => simp [words32]
  | _ :: _ :: _ :: _ :: rest =>
    have ih := words32_length rest
    simp only [words32, List.length_cons, ih]
    omega

/-- C1 (amended).  `decodeData` on a raw byte buffer of length `4k + r`
(`0 ≤ r < 4`): when `r = 0` it succeeds with exactly `k` elements (in
particular an empty buffer, or an absent input, yields an empty
sequence); when `r ≠ 0` the `Float32Array`/`Int32Array` constructor
throws a `RangeError` — the trailing bytes are not silently ignored. -/
theorem decodeData_buffer_length (i : ℕ) (bs : List ℕ) (t : DType) :
    (bs.length % 4 = 0 →
      ∃ l, decodeData (some (.bytes i bs)) t = .ok l ∧ l.length = bs.length / 4) ∧
    (bs.length % 4 ≠ 0 →
      decodeData (some (.bytes i bs)) t = .error .rangeError) ∧
    decodeData none t = .ok [] := by
  refine ⟨fun h => ?_, fun h => ?_, rfl⟩
  · cases t
    case float =>
      refine ⟨(words32 bs).map decodeFloat32, ?_, ?_⟩
      · simp [decodeData, decodeDataV, truthyV, bytesToArray, h]
      · simp [words32_length]
    case int =>
      refine ⟨(words32 bs).map (fun u => .num ((toInt32 u : ℤ) : ℚ)), ?_, ?_⟩
      · simp [decodeData, decodeDataV, truthyV, bytesToArray, h]
      · simp [words32_length]
  · cases t <;> simp [decodeData, decodeDataV, truthyV, bytesToArray, h]

/-- Witness for `decodeData_buffer_length` at a 9-byte buffer
(`k = 2`, `r = 1`): the length hypotheses are discharged at `9`. -/
theorem decodeData_buffer_length_witness :
    ((9 : ℕ) % 4 ≠ 0) ∧
      decodeData (some (.bytes 0 [1, 2, 3, 4, 5, 6, 7, 8, 9])) .int =
        .error .rangeError := by
  refine ⟨by decide, ?_⟩
  exact (decodeData_buffer_length 0 [1, 2, 3, 4, 5, 6, 7, 8, 9] .int).2.1 (by decide)

/-- C1 counterexample to the claim as stated: a 1-byte buffer
(`k = 0`, `r = 1`) does not yield `k = 0` elements — the typed-array
constructor raises a `RangeError`, so `decodeData` does not "never
raise an error". -/
theorem decodeData_trailing_byte_errors :
    decodeData (some (.bytes 0 [0])) .float = .error .rangeError := by rfl

/-- `n &&& 255` is `n % 256`. -/
theorem and255_eq_mod (n : ℕ) : n &&& 255 = n % 256 := by
  have h := Nat.and_pow_two_sub_one_eq_mod n 8
  norm_num at h
  exact h

/-- C2.  For every 32-bit integer input, `rgbaIntToColor` reads byte 0
as red, byte 1 as green, byte 2 as blue, byte 3 as alpha (alpha scaled
by 255); when that alpha byte is zero and some color byte is nonzero it
re-reads the same word with byte 3 as red, byte 2 as green, byte 1 as
blue, byte 0 as alpha; and input `0` gives opaque black. -/
theorem rgbaIntToColor_spec (rgba : ℤ) (_h1 : -(2 ^ 31) ≤ rgba) (_h2 : rgba < 2 ^ 31) :
    rgbaIntToColor rgba =
      if rgba = 0 then ⟨0, 0, 0, 1⟩
      else if byteOf rgba 3 = 0 ∧
          (byteOf rgba 0 > 0 ∨ byteOf rgba 1 > 0 ∨ byteOf rgba 2 > 0) then
        ⟨byteOf rgba 3, byteOf rgba 2, byteOf rgba 1, (byteOf rgba 0 : ℚ) / 255⟩
      else ⟨byteOf rgba 0, byteOf rgba 1, byteOf rgba 2, (byteOf rgba 3 : ℚ) / 255⟩ := by
  have e24 : jsToUint32 rgba >>> 24 &&& 255 = byteOf rgba 3 := by
    rw [Nat.shiftRight_eq_div_pow, and255_eq_mod, byteOf]
  have e16 : jsToUint32 rgba >>> 16 &&& 255 = byteOf rgba 2 := by
    rw [Nat.shiftRight_eq_div_pow, and255_eq_mod, byteOf]
  have e8 : jsToUint32 rgba >>> 8 &&& 255 = byteOf rgba 1 := by
    rw [Nat.shiftRight_eq_div_pow, and255_eq_mod, byteOf]
  have e0 : jsToUint32 rgba &&& 255 = byteOf rgba 0 := by
    rw [and255_eq_mod, byteOf]; norm_num
  rw [rgbaIntToColor]
  simp only [e24, e16, e8, e0]

/-- Witness for `rgbaIntToColor_spec` at `rgba = 255` (`0x000000FF`):
the alpha byte under the primary reading is `0` and the red byte is
`255`, so the swapped-order fallback applies and yields opaque black. -/
theorem rgbaIntToColor_spec_witness :
    (-(2 ^ 31) ≤ (255 : ℤ) ∧ (255 : ℤ) < 2 ^ 31) ∧
      rgbaIntToColor 255 = ⟨0, 0, 0, 1⟩ := by
  refine ⟨⟨by decide, by decide⟩, ?_⟩
  have h := rgbaIntToColor_spec 255 (by decide) (by decide)
  simpa [byteOf, jsToUint32] using h

/-- C3.  A counts entry `n ≤ 0` is skipped without touching the state:
running the curve loop with such an entry spliced in is the same as
running it without, so later curves read from the same point cursor as
if the entry had not existed (indices of the surrounding entries are
part of the list elements and are unaffected). -/
theorem curveLoop_skips_nonpositive (pts ws cs : List JSNum)
    (pre post : List (ℕ × JSNum)) (i : ℕ) (n : JSNum)
    (st : ℕ × List CurveData) (h : n.jsle (.num 0) = true) :
    curveLoop pts ws cs (pre ++ (i, n) :: post) st =
      curveLoop pts ws cs (pre ++ post) st := by
  induction pre generalizing st with
  | nil => simp [curveLoop, curveStep, h]
  | cons p pre ih => cases p; simp only [List.cons_append, curveLoop]; exact ih _

/-- Witness for `curveLoop_skips_nonpositive`: a zero count spliced in
front of a well-formed curve changes nothing. -/
theorem curveLoop_skips_nonpositive_witness :
    (JSNum.num 0).jsle (.num 0) = true ∧
      curveLoop [.num 0, .num 0, .num 1, .num 1] [] []
          ([] ++ (0, JSNum.num 0) :: [(1, JSNum.num 2)]) (0, []) =
        curveLoop [.num 0, .num 0, .num 1, .num 1] [] [] ([] ++ [(1, JSNum.num 2)]) (0, []) := by
  exact ⟨by decide,
    curveLoop_skips_nonpositive [.num 0, .num 0, .num 1, .num 1] [] []
      [] [(1, JSNum.num 2)] 0 (.num 0) (0, []) (by decide)⟩

/-- C9 (amended).  A curve appended by one step of the loop gets
`width = widths[i]` exactly when that entry is present and truthy —
present, not `NaN` and not `0`; it gets the default `2` when the entry
is absent, `NaN`, or `0`, and an infinite entry is kept as-is.  (The
source computes `widths[i] || 2`.) -/
theorem curveStep_width (pts ws cs : List JSNum) (i : ℕ) (n : JSNum)
    (st : ℕ × List CurveData) (c : CurveData)
    (hc : c ∈ (curveStep pts ws cs i n st).2) :
    c ∈ st.2 ∨
      c.width = (match ws.get? i with
        | some (.num q) => if q ≠ 0 then .num q else .num 2
        | some .nan => .num 2
        | some w => w
        | none => .num 2) := by
  rw [curveStep] at hc
  by_cases hskip : n.jsle (.num 0) = true
  · simp [hskip] at hc; exact Or.inl hc
  · rw [if_neg hskip] at hc
    by_cases hlen : (consumePoints pts st.1 (iterCount n)).1.length ≥ 2
    · rw [if_pos hlen] at hc
      rcases List.mem_append.1 hc with h | h
      · exact Or.inl h
      · refine Or.inr ?_
        have hcw : c.width = jsOrNum (ws.get? i) (.num 2) := by
          simp only [List.mem_singleton] at h
          rw [h]
        rw [hcw]
        match hw : ws.get? i with
        | none => simp [jsOrNum]
        | some (.num q) =>
          by_cases hq : q = 0 <;> simp [jsOrNum, JSNum.truthy, hq]
        | some .nan => simp [jsOrNum, JSNum.truthy]
        | some .posInf => simp [jsOrNum, JSNum.truthy]
        | some .negInf => simp [jsOrNum, JSNum.truthy]
    · rw [if_neg hlen] at hc
      exact Or.inl hc

/-- Witness for `curveStep_width`: with `widths = [+Infinity]` the new
curve keeps the infinite width (the spec's "finite or default" reading
would demand `2`). -/
theorem curveStep_width_witness :
    (⟨[⟨.num 0, .num 0⟩, ⟨.num 1, .num 1⟩], .posInf, ⟨0, 0, 0, 1⟩⟩ : CurveData) ∈
        (curveStep [.num 0, .num 0, .num 1, .num 1] [.posInf] [] 0 (.num 2) (0, [])).2 ∧
      ((⟨[⟨.num 0, .num 0⟩, ⟨.num 1, .num 1⟩], .posInf, ⟨0, 0, 0, 1⟩⟩ : CurveData) ∈
          ([] : List CurveData) ∨
        (JSNum.posInf : JSNum) = .posInf) := by
  refine ⟨by decide, ?_⟩
  have h := curveStep_width [.num 0, .num 0, .num 1, .num 1] [.posInf] [] 0 (.num 2)
    (0, []) ⟨[⟨.num 0, .num 0⟩, ⟨.num 1, .num 1⟩], .posInf, ⟨0, 0, 0, 1⟩⟩ (by decide)
  simp at h
  simp [h]

/-- C9 counterexample to the claim as stated: `widths[0] = 0` is
present and finite, yet the produced curve has the default width `2`,
not `0`. -/
theorem width_zero_counterexample :
    extractCurveDataArrays [.num 0, .num 0, .num 1, .num 1] [.num 2] [.num 0] [] =
        .ok ⟨[⟨[⟨.num 0, .num 0⟩, ⟨.num 1, .num 1⟩], .num 2, ⟨0, 0, 0, 1⟩⟩],
          .num 800, .num 1000⟩ ∧
      (JSNum.num 2 : JSNum) ≠ .num 0 := by
  refine ⟨?_, by decide⟩
  norm_num [extractCurveDataArrays, curveLoop, curveStep, consumePoints, iterCount,
    jsOrNum, colorArg, rgbaIntToColor, jsToUint32, maxFoldCurves, maxFoldPoints,
    JSNum.jsle, JSNum.jsMax, JSNum.jsAdd, JSNum.jsCeil, JSNum.truthy, JSNum.isNaN,
    List.enum, List.enumFrom]

/-- A falsy value decodes to the empty sequence (the source's leading
`if (!data) return []`). -/
theorem decodeDataV_falsy (v : Value) (t : DType) (h : truthyV v = false) :
    decodeDataV v t = .ok [] := by
  cases v with
  | null => rfl
  | bool b =>
    cases b
    · rfl
    · exact absurd h (by simp [truthyV])
  | num q =>
    cases q with
    | num r =>
      have hr : r = 0 := by simpa [truthyV, JSNum.truthy] using h
      subst hr; rfl
    | nan => rfl
    | posInf => exact absurd h (by simp [truthyV, JSNum.truthy])
    | negInf => exact absurd h (by simp [truthyV, JSNum.truthy])
  | str s =>
    have hs : s = "" := by simpa [truthyV] using h
    subst hs
    cases t <;> rfl
  | bytes i bs => exact absurd h (by simp [truthyV])
  | arr i items => exact absurd h (by simp [truthyV])
  | dict i es => exact absurd h (by simp [truthyV])

/-- The `data.data` probe is the lookup of the `data` property. -/
theorem decodeDataProp_eq_lookup (es : List (String × Value)) (t : DType) :
    decodeDataProp es t =
      (match lookupEntries es "data" with
        | some v => if truthyV v then decodeDataV v t else .ok []
        | none => .ok []) := by
  induction es with
  | nil => rfl
  | cons e rest ih =>
    rcases e with ⟨k, v⟩
    by_cases hk : k = "data" <;> simp [decodeDataProp, lookupEntries, hk, ih]

/-- C10.  The public interface of `decodeData` beyond raw buffers: a
string is base64-decoded with `atob` and the resulting bytes are viewed
as the typed array (an `atob` failure propagates); an object carrying a
`data` property decodes exactly as that property's value would; and
`null`, booleans, plain numbers, arrays, and objects without a `data`
property all yield the empty sequence rather than an error. -/
theorem decodeData_interface (t : DType) :
    (∀ s, decodeData (some (.str s)) t =
      (match atob s with
        | .error e => .error e
        | .ok bs => bytesToArray bs t)) ∧
    (∀ i es v, lookupEntries es "data" = some v →
      decodeData (some (.dict i es)) t = decodeData (some v) t) ∧
    decodeData (some .null) t = .ok [] ∧
    (∀ b, decodeData (some (.bool b)) t = .ok []) ∧
    (∀ n, decodeData (some (.num n)) t = .ok []) ∧
    (∀ i items, decodeData (some (.arr i items)) t = .ok []) ∧
    (∀ i es, lookupEntries es "data" = none →
      decodeData (some (.dict i es)) t = .ok []) := by
  refine ⟨fun s => ?_, fun i es v hv => ?_, rfl, fun b => ?_, fun n => ?_,
    fun i items => ?_, fun i es hn => ?_⟩
  · by_cases hs : s = ""
    · subst hs
      cases t <;> rfl
    · rw [decodeData, decodeDataV]
      simp [truthyV, hs]
  · rw [decodeData, decodeData, decodeDataV]
    simp only [truthyV, Bool.not_true, Bool.false_eq_true, if_false]
    rw [decodeDataProp_eq_lookup, hv]
    by_cases htv : truthyV v = true
    · simp [htv]
    · rw [Bool.not_eq_true] at htv
      simp [htv, decodeDataV_falsy v t htv]
  · cases b <;> rfl
  · rw [decodeData, decodeDataV] <;> simp
  · rfl
  · rw [decodeData, decodeDataV]
    simp only [truthyV, Bool.not_true, Bool.false_eq_true, if_false]
    rw [decodeDataProp_eq_lookup, hn]

/-- Witness for `decodeData_interface`: an object `{data: <4 bytes>}`
decodes exactly as its `data` buffer, here to the single element `0`. -/
theorem decodeData_interface_witness :
    lookupEntries [("data", .bytes 1 [0, 0, 0, 0])] "data" = some (.bytes 1 [0, 0, 0, 0]) ∧
      decodeData (some (.dict 0 [("data", .bytes 1 [0, 0, 0, 0])])) .int =
        decodeData (some (.bytes 1 [0, 0, 0, 0])) .int := by
  exact ⟨rfl, (decodeData_interface .int).2.1 0 [("data", .bytes 1 [0, 0, 0, 0])]
    (.bytes 1 [0, 0, 0, 0]) rfl⟩

/-- Unfolding of one inner-loop step when both coordinates are
present. -/
theorem consumePoints_succ_some (pts : List JSNum) (cursor n : ℕ) (xv yv : JSNum)
    (hx : pts.get? (cursor * 2) = some xv) (hy : pts.get? (cursor * 2 + 1) = some yv) :
    consumePoints pts cursor (n + 1) =
      (if !xv.isNaN && !yv.isNaN then
        (⟨xv, yv⟩ :: (consumePoints pts (cursor + 1) n).1,
          (consumePoints pts (cursor + 1) n).2)
      else consumePoints pts (cursor + 1) n) := by
  rw [consumePoints, hx, hy]

/-- Unfolding of one inner-loop step when a coordinate is missing. -/
theorem consumePoints_succ_missing (pts : List JSNum) (cursor n : ℕ)
    (h : pts.get? (cursor * 2) = none ∨ pts.get? (cursor * 2 + 1) = none) :
    consumePoints pts cursor (n + 1) = consumePoints pts (cursor + 1) n := by
  rcases hx : pts.get? (cursor * 2) with _ | xv
  · rw [consumePoints, hx]
  · rcases hy : pts.get? (cursor * 2 + 1) with _ | yv
    · rw [consumePoints, hx, hy]
    · rcases h with h | h
      · rw [hx] at h; cases h
      · rw [hy] at h; cases h

/-- The inner loop advances the shared pair cursor by exactly one per
attempted point, whether or not the pair is kept. -/
theorem consumePoints_cursor (pts : List JSNum) (cursor n : ℕ) :
    (consumePoints pts cursor n).2 = cursor + n := by
  induction n generalizing cursor with
  | zero => rfl
  | succ n ih =>
    rcases hx : pts.get? (cursor * 2) with _ | xv
    · rw [consumePoints_succ_missing pts cursor n (Or.inl hx), ih]; omega
    · rcases hy : pts.get? (cursor * 2 + 1) with _ | yv
      · rw [consumePoints_succ_missing pts cursor n (Or.inr hy), ih]; omega
      · rw [consumePoints_succ_some pts cursor n xv yv hx hy]
        by_cases hnan : (!xv.isNaN && !yv.isNaN) = true
        · rw [if_pos hnan]; simp [ih]; omega
        · rw [if_neg hnan, ih]; omega

/-- Every point retained by the inner loop has non-`NaN` coordinates. -/
theorem consumePoints_no_nan (pts : List JSNum) (cursor n : ℕ) (p : Pt)
    (hp : p ∈ (consumePoints pts cursor n).1) :
    p.x.isNaN = false ∧ p.y.isNaN = false := by
  induction n generalizing cursor with
  | zero => simp [consumePoints] at hp
  | succ n ih =>
    rcases hx : pts.get? (cursor * 2) with _ | xv
    · rw [consumePoints_succ_missing pts cursor n (Or.inl hx)] at hp; exact ih _ hp
    · rcases hy : pts.get? (cursor * 2 + 1) with _ | yv
      · rw [consumePoints_succ_missing pts cursor n (Or.inr hy)] at hp; exact ih _ hp
      · rw [consumePoints_succ_some pts cursor n xv yv hx hy] at hp
        by_cases hnan : (!xv.isNaN && !yv.isNaN) = true
        · rw [if_pos hnan] at hp
          rcases List.mem_cons.1 hp with h | h
          · subst h
            simp only [Bool.and_eq_true, Bool.not_eq_true'] at hnan
            exact hnan
          · exact ih _ h
        · rw [if_neg hnan] at hp
          exact ih _ hp

/-- One loop step preserves the no-`NaN` invariant of the curve list. -/
theorem curveStep_no_nan (pts ws cs : List JSNum) (i : ℕ) (n : JSNum)
    (st : ℕ × List CurveData)
    (hst : ∀ c ∈ st.2, ∀ p ∈ c.points, p.x.isNaN = false ∧ p.y.isNaN = false)
    (c : CurveData) (hc : c ∈ (curveStep pts ws cs i n st).2) (p : Pt)
    (hp : p ∈ c.points) : p.x.isNaN = false ∧ p.y.isNaN = false := by
  rw [curveStep] at hc
  by_cases hskip : n.jsle (.num 0) = true
  · rw [if_pos hskip] at hc; exact hst c hc p hp
  · rw [if_neg hskip] at hc
    by_cases hlen : (consumePoints pts st.1 (iterCount n)).1.length ≥ 2
    · rw [if_pos hlen] at hc
      rcases List.mem_append.1 hc with h | h
      · exact hst c h p hp
      · simp only [List.mem_singleton] at h
        subst h
        exact consumePoints_no_nan pts st.1 (iterCount n) p hp
    · rw [if_neg hlen] at hc; exact hst c hc p hp

/-- The whole curve loop preserves the no-`NaN` invariant. -/
theorem curveLoop_no_nan_inv (pts ws cs : List JSNum)
    (l : List (ℕ × JSNum)) (st : ℕ × List CurveData)
    (hst : ∀ c ∈ st.2, ∀ p ∈ c.points, p.x.isNaN = false ∧ p.y.isNaN = false) :
    ∀ c ∈ (curveLoop pts ws cs l st).2, ∀ p ∈ c.points,
      p.x.isNaN = false ∧ p.y.isNaN = false := by
  induction l generalizing st with
  | nil => exact hst
  | cons e rest ih =>
    rcases e with ⟨i, n⟩
    rw [curveLoop]
    exact ih _ (fun c hc p hp => curveStep_no_nan pts ws cs i n st hst c hc p hp)

/-- C4 (amended).  Every consumed coordinate pair with a `NaN` or
missing coordinate is dropped from the curve's point sequence while
still advancing the shared cursor by one pair, so no point of any
output curve has a `NaN` coordinate.  (Infinite coordinates are *not*
filtered: the source only tests `isNaN`.) -/
theorem curveLoop_no_nan_and_cursor (pts ws cs : List JSNum)
    (l : List (ℕ × JSNum)) (st : ℕ × List CurveData)
    (hst : ∀ c ∈ st.2, ∀ p ∈ c.points, p.x.isNaN = false ∧ p.y.isNaN = false) :
    (∀ c ∈ (curveLoop pts ws cs l st).2, ∀ p ∈ c.points,
      p.x.isNaN = false ∧ p.y.isNaN = false) ∧
    (∀ cursor n, (consumePoints pts cursor n).2 = cursor + n) :=
  ⟨curveLoop_no_nan_inv pts ws cs l st hst,
    fun cursor n => consumePoints_cursor pts cursor n⟩

/-- Witness for `curveLoop_no_nan_and_cursor` on a concrete run whose
input interleaves a `NaN` coordinate: the invariant hypothesis on the
empty initial state is discharged trivially. -/
theorem curveLoop_no_nan_and_cursor_witness :
    (∀ c ∈ (([] : List CurveData)), ∀ p ∈ c.points,
      p.x.isNaN = false ∧ p.y.isNaN = false) ∧
    ((∀ c ∈ (curveLoop [.num 0, .nan, .num 1, .num 1, .num 2, .num 2] [] []
        [(0, JSNum.num 3)] (0, [])).2, ∀ p ∈ c.points,
      p.x.isNaN = false ∧ p.y.isNaN = false) ∧
    (∀ cursor n,
      (consumePoints [.num 0, .nan, .num 1, .num 1, .num 2, .num 2] cursor n).2 =
        cursor + n)) := by
  refine ⟨by simp, ?_⟩
  exact curveLoop_no_nan_and_cursor [.num 0, .nan, .num 1, .num 1, .num 2, .num 2]
    [] [] [(0, JSNum.num 3)] (0, []) (by simp)

/-- C4 counterexample to the claim as stated: an infinite coordinate
passes the `isNaN` filter, so the output curve contains the point
`(+Infinity, 0)` — the claim that no output point has an infinite
coordinate is false. -/
theorem infinite_coordinate_survives :
    (extractCurveDataArrays [.posInf, .num 0, .num 1, .num 1] [.num 2] [] []).map
        (fun d => d.curves.map CurveData.points) =
      .ok [[⟨.posInf, .num 0⟩, ⟨.num 1, .num 1⟩]] := by
  norm_num [extractCurveDataArrays, curveLoop, curveStep, consumePoints, iterCount,
    jsOrNum, colorArg, rgbaIntToColor, jsToUint32, maxFoldCurves, maxFoldPoints,
    JSNum.jsle, JSNum.jsMax, JSNum.jsAdd, JSNum.jsCeil, JSNum.truthy, JSNum.isNaN,
    List.enum, List.enumFrom, Except.map]

/-- C7.  The array-stage of `extractCurveData` (after `decodeData`)
fails — both its `throw` sites are presented as `NoCurveData` by the
specification — exactly when the decoded points array or the decoded
counts array is empty before the curve iteration, or when the
iteration retains no curve with at least 2 valid points; in every
other case it returns a document whose curve sequence is the
(non-empty) iteration result.  Decoded `Int32Array` counts are always
integers, which the hypothesis records (the source loop would not
terminate on an infinite count). -/
theorem extractCurveDataArrays_error_iff (pts counts ws cs : List JSNum)
    (_hint : ∀ n ∈ counts, ∃ k : ℤ, n = .num (k : ℚ)) :
    ((∃ e, extractCurveDataArrays pts counts ws cs = .error e) ↔
      pts = [] ∨ counts = [] ∨ (curveLoop pts ws cs counts.enum (0, [])).2 = []) ∧
    (∀ d, extractCurveDataArrays pts counts ws cs = .ok d →
      d.curves = (curveLoop pts ws cs counts.enum (0, [])).2 ∧ d.curves ≠ []) := by
  by_cases h1 : pts.length = 0 ∨ counts.length = 0
  · rw [extractCurveDataArrays, if_pos h1]
    refine ⟨⟨fun _ => ?_, fun _ => ⟨.noValidData, rfl⟩⟩, fun d hd => by cases hd⟩
    rcases h1 with h | h
    · exact Or.inl (List.length_eq_zero.1 h)
    · exact Or.inr (Or.inl (List.length_eq_zero.1 h))
  · rw [extractCurveDataArrays, if_neg h1]
    push_neg at h1
    by_cases h2 : (curveLoop pts ws cs counts.enum (0, [])).2.length = 0
    · simp only [h2, if_pos]
      refine ⟨⟨fun _ => ?_, fun _ => ⟨.noValidCurves, by simp⟩⟩, fun d hd => by cases hd⟩
      exact Or.inr (Or.inr (List.length_eq_zero.1 h2))
    · simp only [h2, if_neg, if_false]
      constructor
      · constructor
        · rintro ⟨e, he⟩; cases he
        · rintro (h | h | h)
          · exact absurd (by rw [h]; rfl) h1.1
          · exact absurd (by rw [h]; rfl) h1.2
          · exact absurd (by rw [h]; rfl) h2
      · rintro d hd
        injection hd with hd
        subst hd
        exact ⟨rfl, fun hc => h2 (by rw [List.length_eq_zero]; exact hc)⟩

/-- Witness for `extractCurveDataArrays_error_iff` on a concrete
two-point, one-curve input: the integer-counts hypothesis is
discharged at `counts = [2]` and the success branch applies. -/
theorem extractCurveDataArrays_error_iff_witness :
    (∀ n ∈ [JSNum.num 2], ∃ k : ℤ, n = .num (k : ℚ)) ∧
      ¬(∃ e, extractCurveDataArrays [.num 0, .num 0, .num 1, .num 1] [.num 2] [] [] =
        .error e) := by
  have hint : ∀ n ∈ [JSNum.num 2], ∃ k : ℤ, n = .num (k : ℚ) := by
    intro n hn
    simp at hn
    exact ⟨2, by rw [hn]; norm_num⟩
  refine ⟨hint, fun he => ?_⟩
  have h := (extractCurveDataArrays_error_iff [.num 0, .num 0, .num 1, .num 1]
    [.num 2] [] [] hint).1.1 he
  rcases h with h | h | h
  · cases h
  · cases h
  · revert h
    norm_num [curveLoop, curveStep, consumePoints, iterCount, jsOrNum, colorArg,
      rgbaIntToColor, jsToUint32, JSNum.jsle, JSNum.truthy, JSNum.isNaN,
      List.enum, List.enumFrom]

/-- The interior loop emits one quadratic per adjacent pair
`(p[i], p[i+1])` of its input list. -/
theorem quadSegs_eq_zip (l : List Pt) :
    quadSegs l =
      (l.zip l.tail).map (fun pr => .quadraticTo pr.1 (midPt pr.1 pr.2)) := by
  match l with
  | [] => rfl
  | [a] => rfl
  | a :: b :: rest =>
    rw [quadSegs, quadSegs_eq_zip (b :: rest)]
    simp

/-- `lastTwo` returns the second-to-last and last elements. -/
theorem lastTwo_eq (rest : List Pt) (a b : Pt) :
    lastTwo a b rest =
      ((a :: b :: rest)[rest.length]!, (a :: b :: rest)[rest.length + 1]!) := by
  induction rest generalizing a b with
  | nil => simp [lastTwo]
  | cons c r ih =>
    rw [lastTwo, ih]
    simp

/-- C5.  `drawCurve` equals the specification's path description on the
valid (non-`NaN`) points: fewer than 2 valid points emit nothing,
exactly 2 emit `MoveTo`+`LineTo`, and `n ≥ 3` emit `MoveTo(p0)`, one
`QuadraticTo{control p[i], end midpoint(p[i], p[i+1])}` for each
interior `i` in `1..n-2`, and a final
`QuadraticTo{control p[n-2], end p[n-1]}`; in particular on
`[(0,0),(2,0),(2,2)]` it yields `MoveTo(0,0)`,
`QuadraticTo{(2,0),(2,1)}`, `QuadraticTo{(2,0),(2,2)}`. -/
theorem drawCurve_spec (c : CurveData) :
    drawCurve c = strokePathSpec (c.points.filter validPt) ∧
      drawCurve ⟨[⟨.num 0, .num 0⟩, ⟨.num 2, .num 0⟩, ⟨.num 2, .num 2⟩],
          .num 2, ⟨0, 0, 0, 1⟩⟩ =
        [.moveTo ⟨.num 0, .num 0⟩,
          .quadraticTo ⟨.num 2, .num 0⟩ ⟨.num 2, .num 1⟩,
          .quadraticTo ⟨.num 2, .num 0⟩ ⟨.num 2, .num 2⟩] := by
  constructor
  · by_cases hraw : c.points.length < 2
    · have hf : (c.points.filter validPt).length < 2 :=
        Nat.lt_of_le_of_lt (List.length_filter_le _ _) hraw
      rw [drawCurve, if_pos hraw, strokePathSpec, if_pos hf]
    · rw [drawCurve, if_neg hraw]
      rcases hps : c.points.filter validPt with _ | ⟨p0, _ | ⟨p1, _ | ⟨p2, rest⟩⟩⟩
      · simp [strokePathSpec]
      · simp [strokePathSpec]
      · simp [strokePathSpec]
      · have hlen : (p0 :: p1 :: p2 :: rest).length = rest.length + 3 := by simp
        rw [strokePathSpec]
        rw [if_neg (by simp), if_neg (by simp)]
        simp only [List.length_cons, Nat.lt_irrefl]
        rw [if_neg (by simp), lastTwo_eq, quadSegs_eq_zip]
        simp [Nat.add_sub_cancel]
  · norm_num [drawCurve, quadSegs, lastTwo, midPt, validPt, strokePathSpec,
      JSNum.isNaN, JSNum.jsAdd, JSNum.half]

/-- `Math.max(a, -Infinity) = a`. -/
theorem jsMax_negInf_right (a : JSNum) : a.jsMax .negInf = a := by
  cases a <;> rfl

/-- `Math.max(-Infinity, a) = a`. -/
theorem jsMax_negInf_left (a : JSNum) : JSNum.negInf.jsMax a = a := by
  cases a <;> rfl

/-- The branch on `<` picking the larger of two finite numbers. -/
theorem ite_lt_max (p q : ℚ) :
    (if p < q then JSNum.num q else JSNum.num p) = .num (max p q) := by
  by_cases h : p < q
  · rw [if_pos h, max_eq_right h.le]
  · rw [if_neg h, max_eq_left (le_of_not_lt h)]

/-- `Math.max` on two finite numbers is the larger. -/
theorem jsMax_num_num (p q : ℚ) :
    (JSNum.num p).jsMax (.num q) = .num (max p q) := by
  simp only [JSNum.jsMax]
  exact ite_lt_max p q

/-- `Math.max` propagates `NaN` and only `NaN`. -/
theorem isNaN_jsMax (a b : JSNum) :
    (a.jsMax b).isNaN = (a.isNaN || b.isNaN) := by
  cases a <;> cases b <;>
    (try simp only [jsMax_num_num]) <;> simp [JSNum.jsMax, JSNum.isNaN]

/-- `Math.max` is associative. -/
theorem jsMax_assoc (a b c : JSNum) :
    (a.jsMax b).jsMax c = a.jsMax (b.jsMax c) := by
  cases a <;> cases b <;> cases c <;>
    (try simp only [jsMax_num_num]) <;> simp [JSNum.jsMax, ite_lt_max, max_assoc]

/-- Folding `Math.max` from a non-`NaN` seed over non-`NaN` elements
stays non-`NaN`. -/
theorem foldl_jsMax_no_nan (xs : List JSNum) (b : JSNum) (hb : b.isNaN = false)
    (hxs : ∀ x ∈ xs, x.isNaN = false) :
    (List.foldl JSNum.jsMax b xs).isNaN = false := by
  induction xs generalizing b with
  | nil => exact hb
  | cons x xs ih =>
    rw [List.foldl_cons]
    exact ih _ (by rw [isNaN_jsMax, hb, hxs x (by simp)]; rfl)
      (fun y hy => hxs y (by simp [hy]))

/-- A `Math.max` fold from an arbitrary non-`NaN` seed is the seed
maxed with the fold from `-Infinity`. -/
theorem foldl_jsMax_base (xs : List JSNum) (b : JSNum) (_hb : b.isNaN = false)
    (hxs : ∀ x ∈ xs, x.isNaN = false) :
    List.foldl JSNum.jsMax b xs =
      b.jsMax (List.foldl JSNum.jsMax .negInf xs) := by
  induction xs generalizing b with
  | nil => exact (jsMax_negInf_right b).symm
  | cons x xs ih =>
    have hxn : x.isNaN = false := hxs x (by simp)
    have hbx : (b.jsMax x).isNaN = false := by
      rw [isNaN_jsMax, _hb, hxn]; rfl
    have hxss : ∀ y ∈ xs, y.isNaN = false := fun y hy => hxs y (by simp [hy])
    rw [List.foldl_cons, List.foldl_cons, jsMax_negInf_left,
      ih (b.jsMax x) hbx hxss, ih x hxn hxss, jsMax_assoc]

/-- The two clamped canvas formulas agree whether the inner max-fold is
seeded with `0` (as the source does) or with `-Infinity` (the
specification's max over the raw coordinates), because a non-positive
maximum is absorbed by the `max(..., cap)` clamp for any cap above 50. -/
theorem clamped_fold_seed (xs : List JSNum) (hxs : ∀ x ∈ xs, x.isNaN = false)
    (cap : ℚ) (hcap : 50 < cap) :
    ((List.foldl JSNum.jsMax (.num 0) xs).jsCeil.jsAdd (.num 50)).jsMax (.num cap) =
      ((List.foldl JSNum.jsMax .negInf xs).jsCeil.jsAdd (.num 50)).jsMax (.num cap) := by
  rw [foldl_jsMax_base xs (.num 0) rfl hxs]
  have hN : (List.foldl JSNum.jsMax .negInf xs).isNaN = false :=
    foldl_jsMax_no_nan xs .negInf rfl hxs
  rcases hNc : List.foldl JSNum.jsMax .negInf xs with q | _ | _ | _
  · by_cases h0 : (0 : ℚ) < q
    · rw [show (JSNum.num 0).jsMax (.num q) = .num q by
        simp [JSNum.jsMax, if_pos h0]]
    · rw [show (JSNum.num 0).jsMax (.num q) = .num 0 by
        simp [JSNum.jsMax, if_neg h0]]
      have hq : q ≤ 0 := le_of_not_lt h0
      have hcz : ⌈q⌉ ≤ (0 : ℤ) := Int.ceil_le.2 (by exact_mod_cast hq)
      have hcl : (⌈q⌉ : ℚ) + 50 < cap := by
        have : (⌈q⌉ : ℚ) ≤ 0 := by exact_mod_cast hcz
        linarith
      simp only [JSNum.jsCeil, JSNum.jsAdd, JSNum.jsMax, Int.ceil_zero,
        Int.cast_zero]
      rw [if_pos (by linarith : (0 : ℚ) + 50 < cap), if_pos hcl]
  · rw [hNc] at hN; cases hN
  · rfl
  · rw [jsMax_negInf_right]
    simp only [JSNum.jsCeil, JSNum.jsAdd, JSNum.jsMax, Int.ceil_zero,
      Int.cast_zero]
    rw [if_pos (by linarith : (0 : ℚ) + 50 < cap)]

/-- The per-curve max loop is a pair of `Math.max` folds over the
coordinate projections. -/
theorem maxFoldPoints_eq (ps : List Pt) (a b : JSNum) :
    maxFoldPoints ps (a, b) =
      (List.foldl JSNum.jsMax a (ps.map Pt.x),
        List.foldl JSNum.jsMax b (ps.map Pt.y)) := by
  induction ps generalizing a b with
  | nil => rfl
  | cons p ps ih => rw [maxFoldPoints, ih, List.map_cons, List.map_cons,
      List.foldl_cons, List.foldl_cons]

/-- The whole max loop is a pair of `Math.max` folds over all
coordinates. -/
theorem maxFoldCurves_eq (cs : List CurveData) (a b : JSNum) :
    maxFoldCurves cs (a, b) =
      (List.foldl JSNum.jsMax a (allXs cs),
        List.foldl JSNum.jsMax b (allYs cs)) := by
  induction cs generalizing a b with
  | nil => rfl
  | cons c cs ih =>
    rw [maxFoldCurves, maxFoldPoints_eq, ih]
    simp [allXs, allYs, List.flatMap_cons, List.foldl_append]

/-- C6.  For every document the array stage assembles, the canvas
width is `max(ceil(max_x) + 50, 800)` and the height is
`max(ceil(max_y) + 50, 1000)`, where `max_x`/`max_y` are the `Math.max`
folds (from `-Infinity`) over the raw coordinates of every point of
every output curve; on an empty coordinate set the same formulas give
the `800 x 1000` defaults.  The hypothesis records that decoded
`Int32Array` counts are integers (the source loop would not terminate
on an infinite count). -/
theorem canvas_size_formula (pts counts ws cs : List JSNum) (d : NotabilityData)
    (_hint : ∀ n ∈ counts, ∃ k : ℤ, n = .num (k : ℚ))
    (hok : extractCurveDataArrays pts counts ws cs = .ok d) :
    d.width =
      ((List.foldl JSNum.jsMax .negInf (allXs d.curves)).jsCeil.jsAdd
        (.num 50)).jsMax (.num 800) ∧
    d.height =
      ((List.foldl JSNum.jsMax .negInf (allYs d.curves)).jsCeil.jsAdd
        (.num 50)).jsMax (.num 1000) ∧
    ((List.foldl JSNum.jsMax .negInf (allXs [])).jsCeil.jsAdd
      (.num 50)).jsMax (.num 800) = .num 800 ∧
    ((List.foldl JSNum.jsMax .negInf (allYs [])).jsCeil.jsAdd
      (.num 50)).jsMax (.num 1000) = .num 1000 := by
  rw [extractCurveDataArrays] at hok
  by_cases h1 : pts.length = 0 ∨ counts.length = 0
  · rw [if_pos h1] at hok; cases hok
  · rw [if_neg h1] at hok
    by_cases h2 : (curveLoop pts ws cs counts.enum (0, [])).2.length = 0
    · rw [if_pos h2] at hok; cases hok
    · rw [if_neg h2] at hok
      injection hok with hok
      subst hok
      have hnn := curveLoop_no_nan_inv pts ws cs counts.enum (0, []) (by simp)
      have hx : ∀ x ∈ allXs (curveLoop pts ws cs counts.enum (0, [])).2,
          x.isNaN = false := by
        intro x hxm
        simp only [allXs, List.mem_flatMap, List.mem_map] at hxm
        rcases hxm with ⟨c, hc, p, hp, rfl⟩
        exact (hnn c hc p hp).1
      have hy : ∀ y ∈ allYs (curveLoop pts ws cs counts.enum (0, [])).2,
          y.isNaN = false := by
        intro y hym
        simp only [allYs, List.mem_flatMap, List.mem_map] at hym
        rcases hym with ⟨c, hc, p, hp, rfl⟩
        exact (hnn c hc p hp).2
      refine ⟨?_, ?_, by rfl, by rfl⟩
      · show ((maxFoldCurves _ (.num 0, .num 0)).1.jsCeil.jsAdd (.num 50)).jsMax
            (.num 800) = _
        rw [maxFoldCurves_eq]
        exact clamped_fold_seed _ hx 800 (by norm_num)
      · show ((maxFoldCurves _ (.num 0, .num 0)).2.jsCeil.jsAdd (.num 50)).jsMax
            (.num 1000) = _
        rw [maxFoldCurves_eq]
        exact clamped_fold_seed _ hy 1000 (by norm_num)

/-- Witness for `canvas_size_formula` on a one-curve document whose
coordinates peak at `(10, 20)`: both clamps engage, so the canvas is
`800 x 1000`. -/
theorem canvas_size_formula_witness :
    extractCurveDataArrays [.num 0, .num 0, .num 10, .num 20] [.num 2] [] [] =
        .ok ⟨[⟨[⟨.num 0, .num 0⟩, ⟨.num 10, .num 20⟩], .num 2, ⟨0, 0, 0, 1⟩⟩],
          .num 800, .num 1000⟩ ∧
      (JSNum.num 800 : JSNum) =
        ((List.foldl JSNum.jsMax .negInf
            (allXs [⟨[⟨.num 0, .num 0⟩, ⟨.num 10, .num 20⟩], .num 2,
              ⟨0, 0, 0, 1⟩⟩])).jsCeil.jsAdd (.num 50)).jsMax (.num 800) := by
  have hok : extractCurveDataArrays [.num 0, .num 0, .num 10, .num 20] [.num 2] [] [] =
      .ok ⟨[⟨[⟨.num 0, .num 0⟩, ⟨.num 10, .num 20⟩], .num 2, ⟨0, 0, 0, 1⟩⟩],
        .num 800, .num 1000⟩ := by
    norm_num [extractCurveDataArrays, curveLoop, curveStep, consumePoints, iterCount,
      jsOrNum, colorArg, rgbaIntToColor, jsToUint32, maxFoldCurves, maxFoldPoints,
      JSNum.jsle, JSNum.jsMax, JSNum.jsAdd, JSNum.jsCeil, JSNum.truthy, JSNum.isNaN,
      List.enum, List.enumFrom]
  have hint : ∀ n ∈ [JSNum.num 2], ∃ k : ℤ, n = .num (k : ℚ) := by
    intro n hn
    simp at hn
    exact ⟨2, by rw [hn]; norm_num⟩
  have h := (canvas_size_formula [.num 0, .num 0, .num 10, .num 20] [.num 2] [] []
    ⟨[⟨[⟨.num 0, .num 0⟩, ⟨.num 10, .num 20⟩], .num 2, ⟨0, 0, 0, 1⟩⟩],
      .num 800, .num 1000⟩ hint hok).1
  exact ⟨hok, h⟩

/-- Unfolding: the depth bound. -/
theorem searchAux_depth (v : Value) (d : ℕ) (vis : List ℕ) (hd : d > 15) :
    searchAux v d vis = (none, vis) := by
  simp only [searchAux.eq_def]
  rw [if_pos hd]

/-- Unfolding: non-object values produce nothing and visit nothing. -/
theorem searchAux_leaf (v : Value) (d : ℕ) (vis : List ℕ) (hd : ¬d > 15)
    (hv : match v with
      | .null => True | .bool _ => True | .num _ => True | .str _ => True
      | _ => False) :
    searchAux v d vis = (none, vis) := by
  simp only [searchAux.eq_def]
  rw [if_neg hd]
  cases v <;> first | rfl | exact absurd hv (by simp)

/-- Unfolding: an `ArrayBuffer` node. -/
theorem searchAux_bytes (i : ℕ) (bs : List ℕ) (d : ℕ) (vis : List ℕ)
    (hd : ¬d > 15) :
    searchAux (.bytes i bs) d vis =
      if i ∈ vis then (none, vis) else (none, i :: vis) := by
  simp only [searchAux.eq_def]
  rw [if_neg hd]

/-- Unfolding: an array node. -/
theorem searchAux_arr (i : ℕ) (items : List Value) (d : ℕ) (vis : List ℕ)
    (hd : ¬d > 15) :
    searchAux (.arr i items) d vis =
      if i ∈ vis then (none, vis)
      else searchItems items (d + 1) (i :: vis) := by
  simp only [searchAux.eq_def]
  rw [if_neg hd]

/-- Unfolding: a dictionary node. -/
theorem searchAux_dict (i : ℕ) (es : List (String × Value)) (d : ℕ)
    (vis : List ℕ) (hd : ¬d > 15) :
    searchAux (.dict i es) d vis =
      if i ∈ vis then (none, vis)
      else if curveKeyMatch es then (some (.dict i es), i :: vis)
      else searchEntries es (d + 1) (i :: vis) := by
  simp only [searchAux.eq_def]
  rw [if_neg hd]

/-- Unfolding: iteration step that found a match. -/
theorem searchItems_cons_some (x : Value) (xs : List Value) (d : ℕ)
    (vis vis2 : List ℕ) (r : Value) (h : searchAux x d vis = (some r, vis2)) :
    searchItems (x :: xs) d vis = (some r, vis2) := by
  rw [searchItems, h]

/-- Unfolding: iteration step that found nothing. -/
theorem searchItems_cons_none (x : Value) (xs : List Value) (d : ℕ)
    (vis vis2 : List ℕ) (h : searchAux x d vis = (none, vis2)) :
    searchItems (x :: xs) d vis = searchItems xs d vis2 := by
  rw [searchItems, h]

/-- Unfolding: property iteration step that found a match. -/
theorem searchEntries_cons_some (k : String) (x : Value)
    (xs : List (String × Value)) (d : ℕ) (vis vis2 : List ℕ) (r : Value)
    (h : searchAux x d vis = (some r, vis2)) :
    searchEntries ((k, x) :: xs) d vis = (some r, vis2) := by
  rw [searchEntries, h]

/-- Unfolding: property iteration step that found nothing. -/
theorem searchEntries_cons_none (k : String) (x : Value)
    (xs : List (String × Value)) (d : ℕ) (vis vis2 : List ℕ)
    (h : searchAux x d vis = (none, vis2)) :
    searchEntries ((k, x) :: xs) d vis = searchEntries xs d vis2 := by
  rw [searchEntries, h]

mutual

/-- The search only ever adds identities of nodes of its argument to
the visited set. -/
theorem searchAux_vis_subset (v : Value) (d : ℕ) (vis : List ℕ) :
    ∀ a ∈ (searchAux v d vis).2, a ∈ vis ∨ a ∈ allIds v := by
  by_cases hd : d > 15
  · rw [searchAux_depth v d vis hd]
    exact fun a ha => Or.inl ha
  · cases v with
    | null => rw [searchAux_leaf _ d vis hd trivial]; exact fun a ha => Or.inl ha
    | bool b => rw [searchAux_leaf _ d vis hd trivial]; exact fun a ha => Or.inl ha
    | num n => rw [searchAux_leaf _ d vis hd trivial]; exact fun a ha => Or.inl ha
    | str s => rw [searchAux_leaf _ d vis hd trivial]; exact fun a ha => Or.inl ha
    | bytes i bs =>
      rw [searchAux_bytes i bs d vis hd]
      by_cases hv : i ∈ vis
      · rw [if_pos hv]; exact fun a ha => Or.inl ha
      · rw [if_neg hv]
        intro a ha
        rcases List.mem_cons.1 ha with h | h
        · exact Or.inr (by simp [allIds, h])
        · exact Or.inl h
    | arr i items =>
      rw [searchAux_arr i items d vis hd]
      by_cases hv : i ∈ vis
      · rw [if_pos hv]; exact fun a ha => Or.inl ha
      · rw [if_neg hv]
        intro a ha
        rcases searchItems_vis_subset items (d + 1) (i :: vis) a ha with h | h
        · rcases List.mem_cons.1 h with h | h
          · exact Or.inr (by simp [allIds, h])
          · exact Or.inl h
        · exact Or.inr (by simp [allIds, h])
    | dict i es =>
      rw [searchAux_dict i es d vis hd]
      by_cases hv : i ∈ vis
      · rw [if_pos hv]; exact fun a ha => Or.inl ha
      · rw [if_neg hv]
        by_cases hk : curveKeyMatch es
        · rw [if_pos hk]
          intro a ha
          rcases List.mem_cons.1 ha with h | h
          · exact Or.inr (by simp [allIds, h])
          · exact Or.inl h
        · rw [if_neg hk]
          intro a ha
          rcases searchEntries_vis_subset es (d + 1) (i :: vis) a ha with h | h
          · rcases List.mem_cons.1 h with h | h
            · exact Or.inr (by simp [allIds, h])
            · exact Or.inl h
          · exact Or.inr (by simp [allIds, h])

theorem searchItems_vis_subset (xs : List Value) (d : ℕ) (vis : List ℕ) :
    ∀ a ∈ (searchItems xs d vis).2, a ∈ vis ∨ a ∈ allIdsList xs := by
  match xs with
  | [] => exact fun a ha => Or.inl ha
  | x :: rest =>
    rcases hres : searchAux x d vis with ⟨o, vis2⟩
    cases o with
    | some r =>
      rw [searchItems_cons_some x rest d vis vis2 r hres]
      intro a ha
      rcases searchAux_vis_subset x d vis a (by rw [hres]; exact ha) with h | h
      · exact Or.inl h
      · exact Or.inr (by simp [allIdsList, h])
    | none =>
      rw [searchItems_cons_none x rest d vis vis2 hres]
      intro a ha
      rcases searchItems_vis_subset rest d vis2 a ha with h | h
      · rcases searchAux_vis_subset x d vis a (by rw [hres]; exact h) with h3 | h3
        · exact Or.inl h3
        · exact Or.inr (by simp [allIdsList, h3])
      · exact Or.inr (by simp [allIdsList, h])

theorem searchEntries_vis_subset (es : List (String × Value)) (d : ℕ)
    (vis : List ℕ) :
    ∀ a ∈ (searchEntries es d vis).2, a ∈ vis ∨ a ∈ allIdsEntries es := by
  match es with
  | [] => exact fun a ha => Or.inl ha
  | (k, x) :: rest =>
    rcases hres : searchAux x d vis with ⟨o, vis2⟩
    cases o with
    | some r =>
      rw [searchEntries_cons_some k x rest d vis vis2 r hres]
      intro a ha
      rcases searchAux_vis_subset x d vis a (by rw [hres]; exact ha) with h | h
      · exact Or.inl h
      · exact Or.inr (by simp [allIdsEntries, h])
    | none =>
      rw [searchEntries_cons_none k x rest d vis vis2 hres]
      intro a ha
      rcases searchEntries_vis_subset rest d vis2 a ha with h | h
      · rcases searchAux_vis_subset x d vis a (by rw [hres]; exact h) with h3 | h3
        · exact Or.inl h3
        · exact Or.inr (by simp [allIdsEntries, h3])
      · exact Or.inr (by simp [allIdsEntries, h])

end

mutual

/-- With pairwise-distinct node identities (as produced by
`plistToPlain`, which builds a fresh object per node) and a visited set
disjoint from the subtree, the visited-tracking search is the plain
depth-bounded preorder search. -/
theorem searchAux_eq_plain (v : Value) (d : ℕ) (vis : List ℕ)
    (hnd : (allIds v).Nodup) (hdisj : ∀ a ∈ allIds v, a ∉ vis) :
    (searchAux v d vis).1 = (boundedNodes (16 - d) v).find? isCurveMatch := by
  by_cases hd : d > 15
  · rw [searchAux_depth v d vis hd, show 16 - d = 0 from by omega]
    rfl
  · have h16 : 16 - d = (15 - d) + 1 := by omega
    have h15 : 15 - d = 16 - (d + 1) := by omega
    cases v with
    | null =>
      rw [searchAux_leaf _ d vis hd trivial, h16]
      simp [boundedNodes, childrenOf, isCurveMatch]
    | bool b =>
      rw [searchAux_leaf _ d vis hd trivial, h16]
      simp [boundedNodes, childrenOf, isCurveMatch]
    | num n =>
      rw [searchAux_leaf _ d vis hd trivial, h16]
      simp [boundedNodes, childrenOf, isCurveMatch]
    | str s =>
      rw [searchAux_leaf _ d vis hd trivial, h16]
      simp [boundedNodes, childrenOf, isCurveMatch]
    | bytes i bs =>
      have hvi : i ∉ vis := hdisj i (by simp [allIds])
      rw [searchAux_bytes i bs d vis hd, if_neg hvi, h16]
      simp [boundedNodes, childrenOf, isCurveMatch]
    | arr i items =>
      have hvi : i ∉ vis := hdisj i (by simp [allIds])
      have hnd2 : (allIdsList items).Nodup := by
        rw [show allIds (.arr i items) = i :: allIdsList items from rfl] at hnd
        exact hnd.of_cons
      have hni : i ∉ allIdsList items := by
        rw [show allIds (.arr i items) = i :: allIdsList items from rfl] at hnd
        exact (List.nodup_cons.1 hnd).1
      have hdisj2 : ∀ a ∈ allIdsList items, a ∉ i :: vis := by
        intro a ha
        rw [List.mem_cons]
        rintro (rfl | hmem)
        · exact hni ha
        · exact hdisj a (by simp [allIds, ha]) hmem
      rw [searchAux_arr i items d vis hd, if_neg hvi, h16, boundedNodes]
      rw [List.find?_cons_of_neg _ (by simp [isCurveMatch])]
      rw [searchItems_eq_plain items (d + 1) (i :: vis) hnd2 hdisj2, h15]
      rfl
    | dict i es =>
      have hvi : i ∉ vis := hdisj i (by simp [allIds])
      by_cases hk : curveKeyMatch es
      · rw [searchAux_dict i es d vis hd, if_neg hvi, if_pos hk, h16, boundedNodes]
        rw [List.find?_cons_of_pos _ (by simp [isCurveMatch, hk])]
      · have hnd2 : (allIdsEntries es).Nodup := by
          rw [show allIds (.dict i es) = i :: allIdsEntries es from rfl] at hnd
          exact hnd.of_cons
        have hni : i ∉ allIdsEntries es := by
          rw [show allIds (.dict i es) = i :: allIdsEntries es from rfl] at hnd
          exact (List.nodup_cons.1 hnd).1
        have hdisj2 : ∀ a ∈ allIdsEntries es, a ∉ i :: vis := by
          intro a ha
          rw [List.mem_cons]
          rintro (rfl | hmem)
          · exact hni ha
          · exact hdisj a (by simp [allIds, ha]) hmem
        rw [searchAux_dict i es d vis hd, if_neg hvi, if_neg hk, h16, boundedNodes]
        rw [List.find?_cons_of_neg _ (by simp [isCurveMatch, hk])]
        rw [searchEntries_eq_plain es (d + 1) (i :: vis) hnd2 hdisj2, h15]
        rw [show childrenOf (.dict i es) = es.map Prod.snd from rfl,
          List.flatMap_map]

theorem searchItems_eq_plain (xs : List Value) (d : ℕ) (vis : List ℕ)
    (hnd : (allIdsList xs).Nodup) (hdisj : ∀ a ∈ allIdsList xs, a ∉ vis) :
    (searchItems xs d vis).1 =
      (xs.flatMap (boundedNodes (16 - d))).find? isCurveMatch := by
  match xs with
  | [] => rfl
  | x :: rest =>
    have happ : allIdsList (x :: rest) = allIds x ++ allIdsList rest := rfl
    rw [happ] at hnd hdisj
    rcases List.nodup_append.1 hnd with ⟨hnd1, hnd2, hdisj12⟩
    have hdisjx : ∀ a ∈ allIds x, a ∉ vis := by
      intro a ha
      exact hdisj a (List.mem_append.2 (Or.inl ha))
    rcases hres : searchAux x d vis with ⟨o, vis2⟩
    have hx := searchAux_eq_plain x d vis hnd1 hdisjx
    rw [hres] at hx
    rw [List.flatMap_cons, List.find?_append]
    cases o with
    | some r =>
      rw [searchItems_cons_some x rest d vis vis2 r hres, ← hx]
      rfl
    | none =>
      rw [searchItems_cons_none x rest d vis vis2 hres, ← hx]
      have hdisj2 : ∀ a ∈ allIdsList rest, a ∉ vis2 := by
        intro a ha hmem
        rcases searchAux_vis_subset x d vis a (by rw [hres]; exact hmem) with h | h
        · exact hdisj a (List.mem_append.2 (Or.inr ha)) h
        · exact hdisj12 h ha
      rw [searchItems_eq_plain rest d vis2 hnd2 hdisj2]
      rfl

theorem searchEntries_eq_plain (es : List (String × Value)) (d : ℕ)
    (vis : List ℕ) (hnd : (allIdsEntries es).Nodup)
    (hdisj : ∀ a ∈ allIdsEntries es, a ∉ vis) :
    (searchEntries es d vis).1 =
      (es.flatMap (fun e => boundedNodes (16 - d) e.2)).find? isCurveMatch := by
  match es with
  | [] => rfl
  | (k, x) :: rest =>
    have happ : allIdsEntries ((k, x) :: rest) = allIds x ++ allIdsEntries rest := rfl
    rw [happ] at hnd hdisj
    rcases List.nodup_append.1 hnd with ⟨hnd1, hnd2, hdisj12⟩
    have hdisjx : ∀ a ∈ allIds x, a ∉ vis := by
      intro a ha
      exact hdisj a (List.mem_append.2 (Or.inl ha))
    rcases hres : searchAux x d vis with ⟨o, vis2⟩
    have hx := searchAux_eq_plain x d vis hnd1 hdisjx
    rw [hres] at hx
    rw [List.flatMap_cons, List.find?_append]
    cases o with
    | some r =>
      rw [searchEntries_cons_some k x rest d vis vis2 r hres, ← hx]
      rfl
    | none =>
      rw [searchEntries_cons_none k x rest d vis vis2 hres, ← hx]
      have hdisj2 : ∀ a ∈ allIdsEntries rest, a ∉ vis2 := by
        intro a ha hmem
        rcases searchAux_vis_subset x d vis a (by rw [hres]; exact hmem) with h | h
        · exact hdisj a (List.mem_append.2 (Or.inr ha)) h
        · exact hdisj12 h ha
      rw [searchEntries_eq_plain rest d vis2 hnd2 hdisj2]
      rfl

end

/-- C8 (amended).  On a tree whose object identities are pairwise
distinct (which `plistToPlain` guarantees, so the visited check never
prunes anything), `searchForCurveData` is exactly the depth-first
preorder search bounded to depth 15 (nodes at depth 0 through 15, i.e.
the first 16 levels), returning the first dictionary whose value at
one of the key spellings `curvespoints`/`curvesPoints`/`CurvesPoints`
is truthy, and nothing when no such dictionary is reachable within the
bound.  A dictionary that merely contains one of the keys with a falsy
value is passed over. -/
theorem searchForCurveData_spec (v : Value) (hnd : (allIds v).Nodup) :
    searchForCurveData v = (boundedNodes 16 v).find? isCurveMatch := by
  rw [searchForCurveData]
  have h := searchAux_eq_plain v 0 [] hnd (by simp)
  simpa using h

/-- Witness for `searchForCurveData_spec`: a three-level tree with
distinct identities whose inner dictionary holds a non-empty buffer at
`curvesPoints`; both the search and the preorder scan return it. -/
theorem searchForCurveData_spec_witness :
    (allIds (.dict 0 [("a", .arr 1 [.dict 2 [("curvesPoints", .bytes 3 [1, 2, 3, 4])]])])).Nodup ∧
      searchForCurveData
          (.dict 0 [("a", .arr 1 [.dict 2 [("curvesPoints", .bytes 3 [1, 2, 3, 4])]])]) =
        (boundedNodes 16
            (.dict 0 [("a", .arr 1 [.dict 2 [("curvesPoints", .bytes 3 [1, 2, 3, 4])]])])).find?
          isCurveMatch ∧
      searchForCurveData
          (.dict 0 [("a", .arr 1 [.dict 2 [("curvesPoints", .bytes 3 [1, 2, 3, 4])]])]) =
        some (.dict 2 [("curvesPoints", .bytes 3 [1, 2, 3, 4])]) := by
  refine ⟨by decide, ?_, by rfl⟩
  exact searchForCurveData_spec
    (.dict 0 [("a", .arr 1 [.dict 2 [("curvesPoints", .bytes 3 [1, 2, 3, 4])]])])
    (by decide)

/-- C8 counterexample to the claim as stated: the root dictionary
*contains* the key spelling `curvespoints` (with the falsy value `0`),
yet the locator returns nothing — it tests the value's truthiness, not
key containment. -/
theorem searchForCurveData_falsy_key_missed :
    searchForCurveData (.dict 0 [("curvespoints", .num (.num 0))]) = none ∧
      lookupEntries [("curvespoints", .num (.num 0))] "curvespoints" =
        some (.num (.num 0)) := ⟨rfl, rfl⟩

end Notability
